import Mathlib

/-!
# Design patterns: a shallow embedding of `design-patterns.cpp`

Conventions of the embedding.

* A C++ pointer is an `Option`: `none` is `nullptr`, `some a` points at the object `a` (an
  object value when the pointee is owned and never shared, an address into a store
  otherwise). A pointer member that no constructor initialises holds an indeterminate
  value: any of these.
* Dereferencing `none` has no defined behaviour in C++; the embedded operation then has no
  result (`none`).
* A statement `std::cout << ... << std::endl` writes one line; the embedded operation
  returns that line.
-/

set_option autoImplicit false

namespace DesignPatterns

/-! ## Singleton -/

/-- Static storage of class `Singleton`: the pointer `_instance` and the number of times the
private constructor `Singleton()` has run. The object built by the `k`-th run (counting
from 0) lives at address `k`. -/
structure Singleton where
  _instance : Option Nat
  constructed : Nat
deriving DecidableEq, Repr

/-- The definition `Singleton* Singleton::_instance = nullptr;` before any call. -/
def Singleton.initial : Singleton := { _instance := none, constructed := 0 }

/-- The method `Singleton::getInstance()`: the returned pointer and the static storage
afterwards. -/
def Singleton.getInstance (s : Singleton) : Option Nat × Singleton :=
  let s1 : Singleton :=
    if s._instance.isNone then
      { _instance := some s.constructed, constructed := s.constructed + 1 }
    else s
  (s1._instance, s1)

/-- Runs `n` consecutive calls of `getInstance`; the returned pointers, first call first,
and the final static storage. -/
def Singleton.getInstanceTimes : Nat → Singleton → List (Option Nat) × Singleton
  | 0, s => ([], s)
  | n + 1, s =>
    let r := s.getInstance
    let rest := Singleton.getInstanceTimes n r.2
    (r.1 :: rest.1, rest.2)

/-! ## Strategy -/

/-- An object at the given address whose dynamic class is `QuackBehaviour` itself (`Base`)
or its subclass `LouderQuackBehaviour` (`Louder`). The objects have no data members. -/
inductive QuackBehaviour where
  | Base (addr : Nat) : QuackBehaviour
  | Louder (addr : Nat) : QuackBehaviour
deriving DecidableEq, Repr

/-- The virtual method `quack()`, dispatched on the dynamic class; the line written. -/
def QuackBehaviour.quack : QuackBehaviour → String
  | .Base _ => "Quack"
  | .Louder _ => "QUACK!!!"

/-- The class `Duck`: its only member is the pointer `_quacker`. -/
structure Duck where
  _quacker : Option QuackBehaviour
deriving DecidableEq, Repr

/-- The constructor `Duck()`: `_quacker = new QuackBehaviour()`, the new object being
allocated at `addr`. -/
def Duck.new (addr : Nat) : Duck := { _quacker := some (.Base addr) }

/-- The method `Duck::quack()`: `_quacker->quack()`. -/
def Duck.quack (d : Duck) : Option String :=
  match d._quacker with
  | none => none
  | some q => some q.quack

/-- The method `Duck::setQuack(QuackBehaviour*)`. -/
def Duck.setQuack (_d : Duck) (quackBehaviour : Option QuackBehaviour) : Duck :=
  { _quacker := quackBehaviour }

/-- Runs a sequence of `setQuack` calls, first argument first. -/
def Duck.setQuacks (d : Duck) (args : List (Option QuackBehaviour)) : Duck :=
  args.foldl Duck.setQuack d

/-! ## Decorator -/

/-- A well-formed `Beverage` chain: every decorator owns exactly one inner beverage and the
chain ends in a `RumAndCoke`. -/
inductive Beverage where
  | RumAndCoke : Beverage
  | RumAndCokeDecorator (rumAndCoke : Beverage) : Beverage
  | Lime (rumAndCoke : Beverage) : Beverage
  | Umbrella (rumAndCoke : Beverage) : Beverage
deriving DecidableEq, Repr

/-- The virtual method `describe()`. `RumAndCokeDecorator::describe()` is
`rumAndCoke->describe()`; `Lime` and `Umbrella` call it and append their text. -/
def Beverage.describe : Beverage → String
  | .RumAndCoke => "I am a rum and coke"
  | .RumAndCokeDecorator rc => rc.describe
  | .Lime r => r.describe ++ ", with a lime!"
  | .Umbrella r => r.describe ++ ", with an umbrella!"

/-- The two concrete decorator classes. -/
inductive Garnish where
  | Lime : Garnish
  | Umbrella : Garnish
deriving DecidableEq, Repr

/-- The constructor call `new Lime(b)` or `new Umbrella(b)`. -/
def Garnish.wrap : Garnish → Beverage → Beverage
  | .Lime, b => .Lime b
  | .Umbrella, b => .Umbrella b

/-- The text a decorator class appends in its `describe()`. -/
def Garnish.suffix : Garnish → String
  | .Lime => ", with a lime!"
  | .Umbrella => ", with an umbrella!"

/-- Wraps `b` with the decorators of `ds`, the first one innermost. -/
def Beverage.wrapAll (b : Beverage) (ds : List Garnish) : Beverage :=
  ds.foldl (fun acc d => d.wrap acc) b

/-! ## Builder -/

/-- The class `Pizza`. -/
structure Pizza where
  _base : String
  _sauce : String
  _topping : String
deriving DecidableEq, Repr

/-- The object built by `new Pizza()`: the three strings are default-constructed. -/
def Pizza.new : Pizza := { _base := "", _sauce := "", _topping := "" }

/-- The method `Pizza::setBase`. -/
def Pizza.setBase (p : Pizza) (base : String) : Pizza := { p with _base := base }

/-- The method `Pizza::setSauce`. -/
def Pizza.setSauce (p : Pizza) (sauce : String) : Pizza := { p with _sauce := sauce }

/-- The method `Pizza::setTopping`. -/
def Pizza.setTopping (p : Pizza) (topping : String) : Pizza := { p with _topping := topping }

/-- The text `std::cout << s.c_str()` writes: the characters of `s` before its first NUL. -/
def c_str (s : String) : String :=
  String.mk (s.data.takeWhile (fun ch => ch ≠ Char.ofNat 0))

/-- The method `Pizza::describe()`; the line written. -/
def Pizza.describe (p : Pizza) : String :=
  "Pizza with " ++ c_str p._base ++ " base, " ++ c_str p._sauce ++ " sauce, "
    ++ c_str p._topping ++ " topping"

/-- The concrete subclasses of `PizzaBuilder`. -/
inductive BuilderClass where
  | MeatFeastBuilder : BuilderClass
  | SpicyPizzaBuilder : BuilderClass
deriving DecidableEq, Repr

/-- An object of a subclass of `PizzaBuilder`: its dynamic class and the member `_pizza`, a
pointer into the store of pizzas. No constructor initialises `_pizza`. -/
structure PizzaBuilder where
  cls : BuilderClass
  _pizza : Option Nat
deriving DecidableEq, Repr

/-- The declaration `MeatFeastBuilder b;` or `SpicyPizzaBuilder b;`: the classes have no
constructor, so `_pizza` keeps the indeterminate value its storage held. -/
def PizzaBuilder.defaultInit (cls : BuilderClass) (indeterminate : Option Nat) : PizzaBuilder :=
  { cls := cls, _pizza := indeterminate }

/-- The pizzas allocated so far by `new Pizza()`; the address of a pizza is its index. -/
abbrev PizzaStore := List Pizza

/-- The statement `_pizza->set...(...)`: applies `f` to the pizza `_pizza` points at. -/
def PizzaStore.update (ps : PizzaStore) (_pizza : Option Nat) (f : Pizza → Pizza) :
    Option PizzaStore :=
  match _pizza with
  | none => none
  | some a =>
    match ps[a]? with
    | none => none
    | some p => some (ps.set a (f p))

/-- The method `PizzaBuilder::getPizza()`. -/
def PizzaBuilder.getPizza (b : PizzaBuilder) : Option Nat × PizzaBuilder := (b._pizza, b)

/-- The method `PizzaBuilder::bakePizza()`: `_pizza = new Pizza()`. -/
def PizzaBuilder.bakePizza (b : PizzaBuilder) (ps : PizzaStore) : PizzaBuilder × PizzaStore :=
  ({ b with _pizza := some ps.length }, ps ++ [Pizza.new])

/-- The virtual method `chooseBase()`. -/
def PizzaBuilder.chooseBase (b : PizzaBuilder) (ps : PizzaStore) :
    Option (PizzaBuilder × PizzaStore) :=
  match b.cls with
  | .MeatFeastBuilder => (ps.update b._pizza (fun p => p.setBase "deep pan")).map (fun ps1 => (b, ps1))
  | .SpicyPizzaBuilder => (ps.update b._pizza (fun p => p.setBase "thin crust")).map (fun ps1 => (b, ps1))

/-- The virtual method `chooseSauce()`. -/
def PizzaBuilder.chooseSauce (b : PizzaBuilder) (ps : PizzaStore) :
    Option (PizzaBuilder × PizzaStore) :=
  match b.cls with
  | .MeatFeastBuilder => (ps.update b._pizza (fun p => p.setSauce "bbq")).map (fun ps1 => (b, ps1))
  | .SpicyPizzaBuilder => (ps.update b._pizza (fun p => p.setSauce "tomato")).map (fun ps1 => (b, ps1))

/-- The virtual method `chooseTopping()`. -/
def PizzaBuilder.chooseTopping (b : PizzaBuilder) (ps : PizzaStore) :
    Option (PizzaBuilder × PizzaStore) :=
  match b.cls with
  | .MeatFeastBuilder =>
    (ps.update b._pizza (fun p => p.setTopping "all the meat")).map (fun ps1 => (b, ps1))
  | .SpicyPizzaBuilder =>
    (ps.update b._pizza (fun p => p.setTopping "ground beef and jalapenos")).map (fun ps1 => (b, ps1))

/-- The objects on the free store: the pizzas and the builders; an address is an index. -/
structure Store where
  pizzas : PizzaStore
  builders : List PizzaBuilder
deriving DecidableEq, Repr

/-- The expression `new MeatFeastBuilder()` or `new SpicyPizzaBuilder()`: the address of the
new builder and the store afterwards. The parentheses value-initialise the object, so its
`_pizza` is null. -/
def Store.newBuilder (s : Store) (cls : BuilderClass) : Nat × Store :=
  (s.builders.length, { s with builders := s.builders ++ [{ cls := cls, _pizza := none }] })

/-- The class `Cook`: its only member is the pointer `_pizzaBuilder`. -/
structure Cook where
  _pizzaBuilder : Option Nat
deriving DecidableEq, Repr

/-- The declaration `Cook cook;`: no constructor initialises `_pizzaBuilder`; its
indeterminate value is taken to be null, and `setPizzaBuilder` overwrites it. -/
def Cook.new : Cook := { _pizzaBuilder := none }

/-- The method `Cook::setPizzaBuilder(PizzaBuilder*)`. -/
def Cook.setPizzaBuilder (_c : Cook) (pb : Option Nat) : Cook := { _pizzaBuilder := pb }

/-- The method `Cook::getPizza()`: `_pizzaBuilder->getPizza()`. The result is the returned
pointer together with the cook and the store afterwards. -/
def Cook.getPizza (c : Cook) (s : Store) : Option (Option Nat × Cook × Store) :=
  match c._pizzaBuilder with
  | none => none
  | some a =>
    match s.builders[a]? with
    | none => none
    | some b =>
      let r := b.getPizza
      some (r.1, c, { s with builders := s.builders.set a r.2 })

/-- The method `Cook::bakePizza()`: the four calls on `*_pizzaBuilder`, in the order of the
source. -/
def Cook.bakePizza (c : Cook) (s : Store) : Option (Cook × Store) :=
  match c._pizzaBuilder with
  | none => none
  | some a =>
    match s.builders[a]? with
    | none => none
    | some b =>
      let r1 := b.bakePizza s.pizzas
      match r1.1.chooseBase r1.2 with
      | none => none
      | some r2 =>
        match r2.1.chooseSauce r2.2 with
        | none => none
        | some r3 =>
          match r3.1.chooseTopping r3.2 with
          | none => none
          | some r4 => some (c, { pizzas := r4.2, builders := s.builders.set a r4.1 })

/-- Runs `Cook::bakePizza()` `n` times in a row. -/
def Cook.bakePizzaTimes : Nat → Cook → Store → Option (Cook × Store)
  | 0, c, s => some (c, s)
  | n + 1, c, s =>
    match c.bakePizza s with
    | none => none
    | some r => Cook.bakePizzaTimes n r.1 r.2

/-! ## Factory -/

/-- The enumeration `Type`; a value is the integer it holds, so that every integer converted
to the enumeration is covered. -/
abbrev ShapeType := Int

/-- The enumerator `CIRCLE`. -/
def CIRCLE : ShapeType := 0

/-- The enumerator `SQUARE`. -/
def SQUARE : ShapeType := 1

/-- An object of class `Circle` or `Square`, with its member `_name`. -/
inductive Shape where
  | Circle (_name : String) : Shape
  | Square (_name : String) : Shape
deriving DecidableEq, Repr

/-- The constructor `Circle()`. -/
def Shape.newCircle : Shape := .Circle "Circle"

/-- The constructor `Square()`. -/
def Shape.newSquare : Shape := .Square "Square"

/-- The member `_name` of either class. -/
def Shape.name : Shape → String
  | .Circle n => n
  | .Square n => n

/-- The virtual method `draw()`; the line written. -/
def Shape.draw : Shape → String
  | .Circle n => "drawing " ++ c_str n
  | .Square n => "drawing " ++ c_str n

/-- The method `ShapeFactory::getShape(Type)`: the `switch` with its `default` label. -/
def ShapeFactory.getShape (type : ShapeType) : Shape :=
  if type = CIRCLE then Shape.newCircle
  else if type = SQUARE then Shape.newSquare
  else Shape.newCircle

/-! ## Observer -/

/-- The loop of `std::remove(first, last, value)` over a vector held as a list: `i` is the
read position, `first` the write position; every element different from `value` is moved
to the write position. The result is the vector afterwards and the returned iterator. -/
def std_remove_loop (value : Nat) : Nat → Nat → Nat → List Nat → List Nat × Nat
  | 0, _, first, v => (v, first)
  | fuel + 1, i, first, v =>
    match v[i]? with
    | none => (v, first)
    | some x =>
      if x = value then std_remove_loop value fuel (i + 1) first v
      else std_remove_loop value fuel (i + 1) (first + 1) (v.set first x)

/-- The call `std::remove(v.begin(), v.end(), value)`. -/
def std_remove (v : List Nat) (value : Nat) : List Nat × Nat :=
  std_remove_loop value v.length 0 0 v

/-- The call `v.erase(first, v.end())`. -/
def vector_erase_to_end (v : List Nat) (first : Nat) : List Nat := v.take first

/-- The class `Database`: its only member is the vector `observers`. An `Observer*` is the
address of a live observer object. -/
structure Database where
  observers : List Nat
deriving DecidableEq, Repr

/-- The object built by `new Database()`: the vector is empty. -/
def Database.new : Database := { observers := [] }

/-- The method `Database::registerListener(Observer*)`: `observers.push_back(o)`. -/
def Database.registerListener (db : Database) (o : Nat) : Database :=
  { observers := db.observers ++ [o] }

/-- The method `Database::unregisterListener(Observer*)`: the erase-remove statement. -/
def Database.unregisterListener (db : Database) (o : Nat) : Database :=
  let r := std_remove db.observers o
  { observers := vector_erase_to_end r.1 r.2 }

/-- The method `Database::update()`: the range-based loop calling `o->update()`; the result
is the sequence of observers whose `update()` was called, in the order of the calls. -/
def Database.update (db : Database) : List Nat :=
  db.observers.foldl (fun calls o => calls ++ [o]) []

/-- The method `Listener::update()`; the line written. -/
def Listener.update : String := "received notification"

/-- A call of `registerListener` or of `unregisterListener`. -/
inductive ListenerOp where
  | register (o : Nat) : ListenerOp
  | unregister (o : Nat) : ListenerOp
deriving DecidableEq, Repr

/-- Performs one call on the database. -/
def Database.apply (db : Database) : ListenerOp → Database
  | .register o => db.registerListener o
  | .unregister o => db.unregisterListener o

/-- Performs a sequence of calls, first one first. -/
def Database.applyAll (db : Database) (ops : List ListenerOp) : Database :=
  ops.foldl Database.apply db

/-! ## Auxiliary definitions -/

/-- A call of one of the five public methods of `PizzaBuilder`. -/
inductive BuilderOp where
  | getPizza : BuilderOp
  | bakePizza : BuilderOp
  | chooseBase : BuilderOp
  | chooseSauce : BuilderOp
  | chooseTopping : BuilderOp
deriving DecidableEq, Repr

/-- Performs one call on a builder; `none` when the call has no defined result. -/
def PizzaBuilder.step (b : PizzaBuilder) (ps : PizzaStore) :
    BuilderOp → Option (PizzaBuilder × PizzaStore)
  | .getPizza => some (b.getPizza.2, ps)
  | .bakePizza => some (b.bakePizza ps)
  | .chooseBase => b.chooseBase ps
  | .chooseSauce => b.chooseSauce ps
  | .chooseTopping => b.chooseTopping ps

/-- Performs a sequence of calls on a builder, first one first. -/
def PizzaBuilder.run (b : PizzaBuilder) (ps : PizzaStore) :
    List BuilderOp → Option (PizzaBuilder × PizzaStore)
  | [] => some (b, ps)
  | op :: ops =>
    match b.step ps op with
    | none => none
    | some r => PizzaBuilder.run r.1 r.2 ops

/-- The pizza a builder of the given class has assembled after the three choose-steps. -/
def BuilderClass.assembled : BuilderClass → Pizza
  | .MeatFeastBuilder => ((Pizza.new.setBase "deep pan").setSauce "bbq").setTopping "all the meat"
  | .SpicyPizzaBuilder =>
    ((Pizza.new.setBase "thin crust").setSauce "tomato").setTopping "ground beef and jalapenos"

/-- The documented protocol of the director: on the builder the cook points at, the steps
`bakePizza`, `chooseBase`, `chooseSauce`, `chooseTopping`, each once and in that order; the
cook itself is left as it was. -/
def Cook.bakePizza_documented (c : Cook) (s : Store) : Option (Cook × Store) :=
  match c._pizzaBuilder with
  | none => none
  | some a =>
    match s.builders[a]? with
    | none => none
    | some b =>
      match b.run s.pizzas [.bakePizza, .chooseBase, .chooseSauce, .chooseTopping] with
      | none => none
      | some r => some (c, { pizzas := r.2, builders := s.builders.set a r.1 })

/-! ## Theorems: Decorator -/

theorem describe_wrapAll (b : Beverage) (ds : List Garnish) :
    (b.wrapAll ds).describe = (ds.map Garnish.suffix).foldl (fun acc t => acc ++ t) b.describe := by
  induction ds generalizing b with
  | nil => rfl
  | cons d ds ih =>
    have hd : (d.wrap b).describe = b.describe ++ d.suffix := by
      cases d <;> rfl
    simp only [Beverage.wrapAll, List.foldl_cons, List.map_cons] at ih ⊢
    rw [ih, hd]

/-- C1: a `RumAndCoke` wrapped with any sequence of `Lime`/`Umbrella` decorators, first one
innermost, describes itself as "I am a rum and coke" followed by the decorators' texts in
that order; in particular `Lime(Umbrella(RumAndCoke))` gives the line of the demo. -/
theorem C1_describe_chain :
    (∀ ds : List Garnish,
      (Beverage.RumAndCoke.wrapAll ds).describe
        = (ds.map Garnish.suffix).foldl (fun acc t => acc ++ t) "I am a rum and coke") ∧
    Garnish.suffix .Lime = ", with a lime!" ∧
    Garnish.suffix .Umbrella = ", with an umbrella!" ∧
    Beverage.RumAndCoke.wrapAll [.Umbrella, .Lime] = .Lime (.Umbrella .RumAndCoke) ∧
    (Beverage.Lime (.Umbrella .RumAndCoke)).describe
      = "I am a rum and coke, with an umbrella!, with a lime!" := by
  refine ⟨fun ds => ?_, rfl, rfl, rfl, by decide⟩
  exact describe_wrapAll Beverage.RumAndCoke ds

/-! ## Theorems: Builder -/

theorem PizzaStore.update_last (ps : PizzaStore) (z : Pizza) (f : Pizza → Pizza) :
    PizzaStore.update (ps ++ [z]) (some ps.length) f = some (ps ++ [f z]) := by
  simp [PizzaStore.update]

theorem Cook.bakePizza_eq (c : Cook) (s : Store) (a : Nat) (b : PizzaBuilder)
    (hc : c._pizzaBuilder = some a) (hb : s.builders[a]? = some b) :
    c.bakePizza s = some (c, { pizzas := s.pizzas ++ [b.cls.assembled],
                               builders := s.builders.set a { b with _pizza := some s.pizzas.length } }) := by
  cases hcls : b.cls <;>
    simp [Cook.bakePizza, hc, hb, PizzaBuilder.bakePizza, PizzaBuilder.chooseBase,
      PizzaBuilder.chooseSauce, PizzaBuilder.chooseTopping, hcls, PizzaStore.update_last,
      BuilderClass.assembled]

theorem Cook.bakePizzaTimes_succ (n : Nat) (c : Cook) (s : Store) (a : Nat) (b : PizzaBuilder)
    (hc : c._pizzaBuilder = some a) (hb : s.builders[a]? = some b) :
    ∃ s' : Store, Cook.bakePizzaTimes (n + 1) c s = some (c, s') ∧
      s'.builders[a]? = some { b with _pizza := some (s'.pizzas.length - 1) } ∧
      s'.pizzas[s'.pizzas.length - 1]? = some b.cls.assembled := by
  induction n generalizing s b with
  | zero =>
    have hlt : a < s.builders.length := (List.getElem?_eq_some.mp hb).1
    refine ⟨{ pizzas := s.pizzas ++ [b.cls.assembled],
              builders := s.builders.set a { b with _pizza := some s.pizzas.length } }, ?_, ?_, ?_⟩
    · simp only [Cook.bakePizzaTimes, Cook.bakePizza_eq c s a b hc hb]
    · simp [hlt]
    · simp
  | succ n ih =>
    have hlt : a < s.builders.length := (List.getElem?_eq_some.mp hb).1
    have h1 := Cook.bakePizza_eq c s a b hc hb
    obtain ⟨s', hs', hb', hp'⟩ := ih
      { pizzas := s.pizzas ++ [b.cls.assembled],
        builders := s.builders.set a { b with _pizza := some s.pizzas.length } }
      { b with _pizza := some s.pizzas.length } (by simp [hlt])
    refine ⟨s', ?_, hb', hp'⟩
    rw [Cook.bakePizzaTimes, h1]
    exact hs'

/-- C2: for either builder class and any number `n + 1` of `Cook::bakePizza()` calls on a
cook holding that builder, whatever the cook, the store and the builder were before,
`Cook::getPizza()` returns a pointer to a pizza whose fields are the literals of the class. -/
theorem C2_cook_pizza_literals (s : Store) (a : Nat) (b : PizzaBuilder) (c : Cook) (n : Nat)
    (hb : s.builders[a]? = some b) :
    ∃ (c1 : Cook) (s1 : Store) (p : Nat) (z : Pizza),
      Cook.bakePizzaTimes (n + 1) (c.setPizzaBuilder (some a)) s = some (c1, s1) ∧
      (c1.getPizza s1).map (fun r => r.1) = some (some p) ∧
      s1.pizzas[p]? = some z ∧
      (b.cls = .MeatFeastBuilder →
        z = { _base := "deep pan", _sauce := "bbq", _topping := "all the meat" }) ∧
      (b.cls = .SpicyPizzaBuilder →
        z = { _base := "thin crust", _sauce := "tomato",
              _topping := "ground beef and jalapenos" }) := by
  obtain ⟨s1, hrun, hb1, hp1⟩ :=
    Cook.bakePizzaTimes_succ n (c.setPizzaBuilder (some a)) s a b rfl hb
  refine ⟨c.setPizzaBuilder (some a), s1, s1.pizzas.length - 1, b.cls.assembled, hrun, ?_, hp1,
    ?_, ?_⟩
  · simp [Cook.getPizza, Cook.setPizzaBuilder, hb1, PizzaBuilder.getPizza]
  · intro h
    rw [h]
    rfl
  · intro h
    rw [h]
    rfl

theorem C2_cook_pizza_literals_witness :
    ({ pizzas := [], builders := [{ cls := .SpicyPizzaBuilder, _pizza := none }] } : Store).builders[0]?
      = some { cls := .SpicyPizzaBuilder, _pizza := none } ∧
    ∃ (c1 : Cook) (s1 : Store) (p : Nat) (z : Pizza),
      Cook.bakePizzaTimes (2 + 1) (Cook.new.setPizzaBuilder (some 0))
        { pizzas := [], builders := [{ cls := .SpicyPizzaBuilder, _pizza := none }] }
        = some (c1, s1) ∧
      (c1.getPizza s1).map (fun r => r.1) = some (some p) ∧
      s1.pizzas[p]? = some z ∧
      (BuilderClass.SpicyPizzaBuilder = .MeatFeastBuilder →
        z = { _base := "deep pan", _sauce := "bbq", _topping := "all the meat" }) ∧
      (BuilderClass.SpicyPizzaBuilder = .SpicyPizzaBuilder →
        z = { _base := "thin crust", _sauce := "tomato",
              _topping := "ground beef and jalapenos" }) :=
  ⟨rfl, C2_cook_pizza_literals
    { pizzas := [], builders := [{ cls := .SpicyPizzaBuilder, _pizza := none }] }
    0 { cls := .SpicyPizzaBuilder, _pizza := none } Cook.new 2 rfl⟩



/-! ## Theorems: Observer -/

theorem std_remove_loop_take (value : Nat) (fuel i first : Nat) (v : List Nat)
    (hfi : first ≤ i) (hfuel : v.length ≤ i + fuel) :
    (std_remove_loop value fuel i first v).1.take (std_remove_loop value fuel i first v).2
      = v.take first ++ (v.drop i).filter (fun x => decide (x ≠ value)) := by
  induction fuel generalizing i first v with
  | zero =>
    have hnil : v.drop i = [] := List.drop_eq_nil_of_le (by omega)
    simp [std_remove_loop, hnil]
  | succ fuel ih =>
    rw [std_remove_loop]
    cases hx : v[i]? with
    | none =>
      have hnil : v.drop i = [] := List.drop_eq_nil_of_le (List.getElem?_eq_none_iff.mp hx)
      simp [hnil]
    | some x =>
      obtain ⟨hi, hvx⟩ := List.getElem?_eq_some.mp hx
      have hdrop : v.drop i = x :: v.drop (i + 1) := by
        rw [List.drop_eq_getElem_cons hi, hvx]
      by_cases hxv : x = value
      · simp only [hxv, if_true]
        rw [ih (i + 1) first v (by omega) (by omega), hdrop]
        simp [hxv]
      · simp only [hxv, if_false]
        rw [ih (i + 1) (first + 1) (v.set first x) (by omega) (by simp; omega), hdrop]
        have h1 : (v.set first x).drop (i + 1) = v.drop (i + 1) :=
          List.drop_set_of_lt x v (by omega)
        have h2 : (v.set first x).take (first + 1) = v.take first ++ [x] := by
          rw [List.take_succ, List.getElem?_set_self (by omega), List.set_take,
            List.set_eq_of_length_le (by simp)]
          rfl
        rw [h1, h2]
        simp [hxv]

theorem Database.unregisterListener_observers (db : Database) (o : Nat) :
    (db.unregisterListener o).observers = db.observers.filter (fun x => decide (x ≠ o)) := by
  have h := std_remove_loop_take o db.observers.length 0 0 db.observers (le_refl 0) (by omega)
  simpa [Database.unregisterListener, std_remove, vector_erase_to_end] using h

theorem Database.update_eq (db : Database) : db.update = db.observers := by
  have h : ∀ (l acc : List Nat), l.foldl (fun calls o => calls ++ [o]) acc = acc ++ l := by
    intro l
    induction l with
    | nil => intro acc; simp
    | cons a l ih => intro acc; simp [ih]
  simpa [Database.update] using h db.observers []


theorem Database.unregisterListener_of_not_mem (db : Database) (o : Nat)
    (h : o ∉ db.observers) : db.unregisterListener o = db := by
  have h1 := Database.unregisterListener_observers db o
  have h2 : db.observers.filter (fun x => decide (x ≠ o)) = db.observers := by
    rw [List.filter_eq_self]
    intro a ha
    have : a ≠ o := fun e => h (e ▸ ha)
    simpa using this
  cases db with
  | mk obs =>
    cases hr : Database.unregisterListener { observers := obs } o with
    | mk obs1 =>
      rw [hr] at h1
      simp only at h1 h2
      rw [h1, h2]

/-- C5: `registerListener(o)` appends `o` at the end of the observer list and does not
deduplicate; after any sequence of register and unregister calls on a new `Database`, one
`update()` calls the observers exactly in the order of the list, once per occurrence; one
registration followed by one `update()` calls that observer exactly once. -/
theorem C5_update_follows_observer_list :
    (∀ (db : Database) (o : Nat), (db.registerListener o).observers = db.observers ++ [o]) ∧
    (∀ (db : Database) (o : Nat),
      (db.registerListener o).observers.count o = db.observers.count o + 1) ∧
    (∀ ops : List ListenerOp,
      (Database.new.applyAll ops).update = (Database.new.applyAll ops).observers) ∧
    (∀ (ops : List ListenerOp) (o : Nat),
      (Database.new.applyAll ops).update.count o
        = (Database.new.applyAll ops).observers.count o) ∧
    (∀ o : Nat, (Database.new.registerListener o).update = [o] ∧
      (Database.new.registerListener o).update.count o = 1) := by
  refine ⟨fun _ _ => rfl, fun db o => ?_, fun ops => Database.update_eq _, fun ops o => ?_,
    fun o => ?_⟩
  · simp [Database.registerListener]
  · rw [Database.update_eq]
  · rw [Database.update_eq]
    simp [Database.registerListener, Database.new]

/-- C6: `unregisterListener(o)` keeps exactly the elements of the observer list different
from `o`, in their original order; when `o` does not occur the database is unchanged. -/
theorem C6_unregister_removes_every_occurrence (db : Database) (o : Nat) :
    (db.unregisterListener o).observers = db.observers.filter (fun x => decide (x ≠ o)) ∧
    (o ∉ db.observers → db.unregisterListener o = db) := by
  refine ⟨Database.unregisterListener_observers db o, fun h => ?_⟩
  have h1 := Database.unregisterListener_observers db o
  have h2 : db.observers.filter (fun x => decide (x ≠ o)) = db.observers := by
    rw [List.filter_eq_self]
    intro a ha
    have : a ≠ o := fun e => h (e ▸ ha)
    simpa using this
  cases db with
  | mk obs =>
    cases hr : Database.unregisterListener { observers := obs } o with
    | mk obs1 =>
      rw [hr] at h1
      simp only at h1 h2
      rw [h1, h2]

theorem C6_unregister_removes_every_occurrence_witness :
    5 ∉ ({ observers := [1, 2, 1, 3] } : Database).observers ∧
    Database.unregisterListener { observers := [1, 2, 1, 3] } 5 = { observers := [1, 2, 1, 3] } :=
  ⟨by decide, (C6_unregister_removes_every_occurrence { observers := [1, 2, 1, 3] } 5).2 (by decide)⟩

/-! ## Theorems: Factory -/

/-- C3: for each enumerator of `Type`, `getShape` returns a shape of the class of that name:
`CIRCLE` gives a `Circle` named "Circle", drawn as "drawing Circle", and `SQUARE` gives a
`Square` named "Square", drawn as "drawing Square". -/
theorem C3_getShape_matches_enumerator :
    ShapeFactory.getShape CIRCLE = Shape.Circle "Circle" ∧
    (ShapeFactory.getShape CIRCLE).name = "Circle" ∧
    (ShapeFactory.getShape CIRCLE).draw = "drawing Circle" ∧
    ShapeFactory.getShape SQUARE = Shape.Square "Square" ∧
    (ShapeFactory.getShape SQUARE).name = "Square" ∧
    (ShapeFactory.getShape SQUARE).draw = "drawing Square" := by
  refine ⟨by decide, by decide, by decide, by decide, by decide, by decide⟩

/-- C4: for every integer other than `CIRCLE` (0) and `SQUARE` (1) held by the argument,
`getShape` returns, as for `CIRCLE`, a `Circle` named "Circle". -/
theorem C4_getShape_default (type : ShapeType) (hc : type ≠ CIRCLE) (hs : type ≠ SQUARE) :
    ShapeFactory.getShape type = Shape.Circle "Circle" ∧
    ShapeFactory.getShape type = ShapeFactory.getShape CIRCLE ∧
    (ShapeFactory.getShape type).name = "Circle" := by
  have h : ShapeFactory.getShape type = Shape.Circle "Circle" := by
    simp [ShapeFactory.getShape, hc, hs, Shape.newCircle]
  refine ⟨h, ?_, ?_⟩
  · rw [h]
    decide
  · rw [h]
    rfl

theorem C4_getShape_default_witness :
    ((7 : ShapeType) ≠ CIRCLE ∧ (7 : ShapeType) ≠ SQUARE) ∧
    (ShapeFactory.getShape 7 = Shape.Circle "Circle" ∧
     ShapeFactory.getShape 7 = ShapeFactory.getShape CIRCLE ∧
     (ShapeFactory.getShape 7).name = "Circle") :=
  ⟨⟨by decide, by decide⟩, C4_getShape_default 7 (by decide) (by decide)⟩

/-! ## Theorems: Strategy -/

theorem Duck.setQuacks_append (d : Duck) (args : List (Option QuackBehaviour))
    (q : Option QuackBehaviour) : d.setQuacks (args ++ [q]) = { _quacker := q } := by
  simp [Duck.setQuacks, Duck.setQuack]

/-- C7: after `setQuack(b)` the member `_quacker` is exactly `b`, whatever the duck was
before; `quack()` writes what the `quack()` of that behaviour writes, "Quack" for a
`QuackBehaviour` and "QUACK!!!" for a `LouderQuackBehaviour`; after several `setQuack`
calls the last argument is the active behaviour. -/
theorem C7_setQuack_then_quack :
    (∀ (d : Duck) (b : QuackBehaviour),
      (d.setQuack (some b))._quacker = some b ∧ (d.setQuack (some b)).quack = some b.quack) ∧
    (∀ (d1 d2 : Duck) (b : QuackBehaviour), d1.setQuack (some b) = d2.setQuack (some b)) ∧
    (∀ (d : Duck) (addr : Nat), (d.setQuack (some (.Base addr))).quack = some "Quack") ∧
    (∀ (d : Duck) (addr : Nat), (d.setQuack (some (.Louder addr))).quack = some "QUACK!!!") ∧
    (∀ (d : Duck) (args : List (Option QuackBehaviour)) (b : QuackBehaviour),
      (d.setQuacks (args ++ [some b]))._quacker = some b ∧
      (d.setQuacks (args ++ [some b])).quack = some b.quack) := by
  refine ⟨fun _ _ => ⟨rfl, rfl⟩, fun _ _ _ => rfl, fun _ _ => rfl, fun _ _ => rfl,
    fun d args b => ?_⟩
  rw [Duck.setQuacks_append]
  exact ⟨rfl, rfl⟩

/-- C9, as stated, fails: after `setQuack(nullptr)` the member `_quacker` of a new duck is
null and `quack()` has no defined result. -/
theorem C9_null_argument_counterexample :
    ((Duck.new 0).setQuacks [some (.Louder 1), none])._quacker = none ∧
    ((Duck.new 0).setQuacks [some (.Louder 1), none]).quack = none := by
  exact ⟨rfl, rfl⟩

/-- C9, amended: in every state reached from `Duck()` by `setQuack` calls whose arguments
are all non-null, `_quacker` holds exactly one behaviour, it is non-null, and `quack()`
writes that behaviour's line. -/
theorem C9_nonnull_arguments_keep_quacker (addr : Nat) (args : List (Option QuackBehaviour))
    (hargs : ∀ q ∈ args, q ≠ none) :
    (∃! b : QuackBehaviour, ((Duck.new addr).setQuacks args)._quacker = some b) ∧
    ((Duck.new addr).setQuacks args)._quacker ≠ none ∧
    (∃ b : QuackBehaviour, ((Duck.new addr).setQuacks args).quack = some b.quack) := by
  have h : ∃ b : QuackBehaviour, ((Duck.new addr).setQuacks args)._quacker = some b := by
    rcases List.eq_nil_or_concat args with hnil | ⟨front, q, hq⟩
    · subst hnil
      exact ⟨.Base addr, rfl⟩
    · rw [List.concat_eq_append] at hq
      subst hq
      have hq : q ≠ none := hargs q (by simp)
      obtain ⟨b, hb⟩ := Option.ne_none_iff_exists.mp hq
      exact ⟨b, by rw [Duck.setQuacks_append, hb]⟩
  obtain ⟨b, hb⟩ := h
  refine ⟨⟨b, hb, fun b1 hb1 => ?_⟩, ?_, ⟨b, ?_⟩⟩
  · rw [hb] at hb1
    exact (Option.some.inj hb1).symm
  · rw [hb]
    exact Option.some_ne_none b
  · simp [Duck.quack, hb]

theorem C9_nonnull_arguments_keep_quacker_witness :
    (∀ q ∈ [some (QuackBehaviour.Louder 1), some (QuackBehaviour.Base 2)], q ≠ none) ∧
    ((∃! b : QuackBehaviour,
        ((Duck.new 0).setQuacks [some (.Louder 1), some (.Base 2)])._quacker = some b) ∧
     ((Duck.new 0).setQuacks [some (.Louder 1), some (.Base 2)])._quacker ≠ none ∧
     (∃ b : QuackBehaviour,
        ((Duck.new 0).setQuacks [some (.Louder 1), some (.Base 2)]).quack = some b.quack)) :=
  ⟨by decide, C9_nonnull_arguments_keep_quacker 0 [some (.Louder 1), some (.Base 2)] (by decide)⟩

/-! ## Theorems: Singleton -/

theorem Singleton.getInstance_of_some (p c : Nat) :
    Singleton.getInstance { _instance := some p, constructed := c }
      = (some p, { _instance := some p, constructed := c }) := by
  simp [Singleton.getInstance]

theorem Singleton.getInstanceTimes_of_some (n p c : Nat) :
    Singleton.getInstanceTimes n { _instance := some p, constructed := c }
      = (List.replicate n (some p), { _instance := some p, constructed := c }) := by
  induction n with
  | zero => rfl
  | succ n ih =>
    rw [Singleton.getInstanceTimes]
    simp only [Singleton.getInstance_of_some, ih, List.replicate_succ]

/-- C10: in any run of one or more `getInstance()` calls from the initial static storage,
the constructor has run exactly once, already after the first call, every call returns the
pointer to that one object, and a call made once `_instance` is set returns the stored
pointer and changes nothing. -/
theorem C10_singleton_constructed_once :
    (Singleton.getInstance Singleton.initial).2.constructed = 1 ∧
    (∀ n : Nat, (Singleton.getInstanceTimes (n + 1) Singleton.initial).2.constructed = 1) ∧
    (∀ n : Nat, (Singleton.getInstanceTimes (n + 1) Singleton.initial).1
      = List.replicate (n + 1) (Singleton.getInstance Singleton.initial).1) ∧
    (Singleton.getInstance Singleton.initial).1 = some 0 ∧
    (∀ s : Singleton, Singleton.getInstance (Singleton.getInstance s).2
      = Singleton.getInstance s) := by
  have hfirst : Singleton.getInstance Singleton.initial
      = (some 0, { _instance := some 0, constructed := 1 }) := rfl
  have hrun : ∀ n : Nat, Singleton.getInstanceTimes (n + 1) Singleton.initial
      = (List.replicate (n + 1) (some 0), { _instance := some 0, constructed := 1 }) := by
    intro n
    rw [Singleton.getInstanceTimes]
    simp only [hfirst, Singleton.getInstanceTimes_of_some, List.replicate_succ]
  refine ⟨rfl, fun n => ?_, fun n => ?_, rfl, fun s => ?_⟩
  · rw [hrun]
  · rw [hrun, hfirst]
  · cases s with
    | mk inst c =>
      cases inst with
      | none => rfl
      | some p => simp [Singleton.getInstance]

/-! ## Theorems: Builder states -/

theorem PizzaStore.update_eq_some_iff (ps : PizzaStore) (q : Option Nat) (f : Pizza → Pizza) :
    (∃ ps1, PizzaStore.update ps q f = some ps1) ↔ ∃ p z, q = some p ∧ ps[p]? = some z := by
  cases q with
  | none => simp [PizzaStore.update]
  | some p =>
    cases hz : ps[p]? with
    | none => simp [PizzaStore.update, hz]
    | some z => simp [PizzaStore.update, hz]

theorem PizzaStore.update_length (ps ps1 : PizzaStore) (q : Option Nat) (f : Pizza → Pizza)
    (h : PizzaStore.update ps q f = some ps1) : ps1.length = ps.length := by
  cases q with
  | none => simp [PizzaStore.update] at h
  | some p =>
    cases hz : ps[p]? with
    | none => simp [PizzaStore.update, hz] at h
    | some z =>
      simp only [PizzaStore.update, hz, Option.some.injEq] at h
      rw [← h, List.length_set]

theorem PizzaBuilder.step_keeps_builder (b : PizzaBuilder) (ps : PizzaStore) (op : BuilderOp)
    (hop : op ≠ .bakePizza) (r : PizzaBuilder × PizzaStore) (hr : b.step ps op = some r) :
    r.1 = b ∧ r.2.length = ps.length := by
  cases op with
  | getPizza =>
    simp only [PizzaBuilder.step, PizzaBuilder.getPizza, Option.some.injEq] at hr
    rw [← hr]
    exact ⟨rfl, rfl⟩
  | bakePizza => exact absurd rfl hop
  | chooseBase =>
    cases hcls : b.cls <;>
      simp only [PizzaBuilder.step, PizzaBuilder.chooseBase, hcls, Option.map_eq_some'] at hr <;>
      obtain ⟨ps1, h1, h2⟩ := hr <;>
      exact h2 ▸ ⟨rfl, PizzaStore.update_length ps ps1 _ _ h1⟩
  | chooseSauce =>
    cases hcls : b.cls <;>
      simp only [PizzaBuilder.step, PizzaBuilder.chooseSauce, hcls, Option.map_eq_some'] at hr <;>
      obtain ⟨ps1, h1, h2⟩ := hr <;>
      exact h2 ▸ ⟨rfl, PizzaStore.update_length ps ps1 _ _ h1⟩
  | chooseTopping =>
    cases hcls : b.cls <;>
      simp only [PizzaBuilder.step, PizzaBuilder.chooseTopping, hcls, Option.map_eq_some'] at hr <;>
      obtain ⟨ps1, h1, h2⟩ := hr <;>
      exact h2 ▸ ⟨rfl, PizzaStore.update_length ps ps1 _ _ h1⟩

theorem PizzaBuilder.run_keeps_builder (ops : List BuilderOp) (b : PizzaBuilder)
    (ps : PizzaStore) (hops : BuilderOp.bakePizza ∉ ops) (r : PizzaBuilder × PizzaStore)
    (hr : b.run ps ops = some r) : r.1 = b ∧ r.2.length = ps.length := by
  induction ops generalizing ps with
  | nil =>
    simp only [PizzaBuilder.run, Option.some.injEq] at hr
    rw [← hr]
    exact ⟨rfl, rfl⟩
  | cons op ops ih =>
    have hop : op ≠ .bakePizza := fun e => hops (by simp [e])
    have hrest : BuilderOp.bakePizza ∉ ops := fun e => hops (by simp [e])
    rw [PizzaBuilder.run] at hr
    cases hstep : b.step ps op with
    | none => simp [hstep] at hr
    | some r1 =>
      obtain ⟨h1, h2⟩ := PizzaBuilder.step_keeps_builder b ps op hop r1 hstep
      simp only [hstep, h1] at hr
      obtain ⟨h3, h4⟩ := ih r1.2 hrest hr
      exact ⟨h3, h4.trans h2⟩

theorem PizzaBuilder.chooseBase_some_iff (b : PizzaBuilder) (ps : PizzaStore) :
    (∃ r, b.chooseBase ps = some r) ↔ ∃ p z, b._pizza = some p ∧ ps[p]? = some z := by
  cases hcls : b.cls
  · rw [← PizzaStore.update_eq_some_iff ps b._pizza (fun p => p.setBase "deep pan")]
    simp [PizzaBuilder.chooseBase, hcls]
  · rw [← PizzaStore.update_eq_some_iff ps b._pizza (fun p => p.setBase "thin crust")]
    simp [PizzaBuilder.chooseBase, hcls]

theorem PizzaBuilder.chooseSauce_some_iff (b : PizzaBuilder) (ps : PizzaStore) :
    (∃ r, b.chooseSauce ps = some r) ↔ ∃ p z, b._pizza = some p ∧ ps[p]? = some z := by
  cases hcls : b.cls
  · rw [← PizzaStore.update_eq_some_iff ps b._pizza (fun p => p.setSauce "bbq")]
    simp [PizzaBuilder.chooseSauce, hcls]
  · rw [← PizzaStore.update_eq_some_iff ps b._pizza (fun p => p.setSauce "tomato")]
    simp [PizzaBuilder.chooseSauce, hcls]

theorem PizzaBuilder.chooseTopping_some_iff (b : PizzaBuilder) (ps : PizzaStore) :
    (∃ r, b.chooseTopping ps = some r) ↔ ∃ p z, b._pizza = some p ∧ ps[p]? = some z := by
  cases hcls : b.cls
  · rw [← PizzaStore.update_eq_some_iff ps b._pizza (fun p => p.setTopping "all the meat")]
    simp [PizzaBuilder.chooseTopping, hcls]
  · rw [← PizzaStore.update_eq_some_iff ps b._pizza
      (fun p => p.setTopping "ground beef and jalapenos")]
    simp [PizzaBuilder.chooseTopping, hcls]

/-- C8, as stated, fails: on a builder on which `bakePizza` was never called and whose
unassigned `_pizza` holds the address of a live pizza, `chooseBase`, `chooseSauce` and
`chooseTopping` all have a result and overwrite the three fields of that pizza. -/
theorem C8_never_baked_choose_step_counterexample :
    PizzaBuilder.chooseBase (PizzaBuilder.defaultInit .MeatFeastBuilder (some 0))
        [{ _base := "thin crust", _sauce := "tomato", _topping := "ground beef and jalapenos" }]
      = some (PizzaBuilder.defaultInit .MeatFeastBuilder (some 0),
          [{ _base := "deep pan", _sauce := "tomato", _topping := "ground beef and jalapenos" }]) ∧
    PizzaBuilder.run (PizzaBuilder.defaultInit .MeatFeastBuilder (some 0))
        [{ _base := "thin crust", _sauce := "tomato", _topping := "ground beef and jalapenos" }]
        [.chooseBase, .chooseSauce, .chooseTopping]
      = some (PizzaBuilder.defaultInit .MeatFeastBuilder (some 0),
          [{ _base := "deep pan", _sauce := "bbq", _topping := "all the meat" }]) := by
  exact ⟨by decide, by decide⟩

/-- C8, amended: only `bakePizza` assigns `_pizza` and allocates a pizza: any sequence of
`getPizza`, `chooseBase`, `chooseSauce` and `chooseTopping` calls that has a result leaves
the builder, hence `_pizza`, as it was and the number of pizzas unchanged. The choose-steps
are not guarded: each has a result exactly when `_pizza` points at a live pizza, whether or
not `bakePizza` was called before; `bakePizza` makes `_pizza` point at a new pizza, after
which every choose-step has a result. -/
theorem C8_only_bakePizza_assigns_pizza (b : PizzaBuilder) (ps : PizzaStore)
    (ops : List BuilderOp) (r : PizzaBuilder × PizzaStore)
    (hops : BuilderOp.bakePizza ∉ ops) (hr : b.run ps ops = some r) :
    r.1 = b ∧ r.1._pizza = b._pizza ∧ r.2.length = ps.length ∧
    ((∃ r1, b.chooseBase ps = some r1) ↔ ∃ p z, b._pizza = some p ∧ ps[p]? = some z) ∧
    ((∃ r1, b.chooseSauce ps = some r1) ↔ ∃ p z, b._pizza = some p ∧ ps[p]? = some z) ∧
    ((∃ r1, b.chooseTopping ps = some r1) ↔ ∃ p z, b._pizza = some p ∧ ps[p]? = some z) ∧
    (b.bakePizza ps).1._pizza = some ps.length ∧
    (b.bakePizza ps).2.length = ps.length + 1 ∧
    (∃ r1, (b.bakePizza ps).1.chooseBase (b.bakePizza ps).2 = some r1) ∧
    (∃ r1, (b.bakePizza ps).1.chooseSauce (b.bakePizza ps).2 = some r1) ∧
    (∃ r1, (b.bakePizza ps).1.chooseTopping (b.bakePizza ps).2 = some r1) := by
  obtain ⟨h1, h2⟩ := PizzaBuilder.run_keeps_builder ops b ps hops r hr
  have hlive : ∃ p z, (b.bakePizza ps).1._pizza = some p ∧ (b.bakePizza ps).2[p]? = some z :=
    ⟨ps.length, Pizza.new, rfl, by simp [PizzaBuilder.bakePizza]⟩
  refine ⟨h1, by rw [h1], h2, PizzaBuilder.chooseBase_some_iff b ps,
    PizzaBuilder.chooseSauce_some_iff b ps, PizzaBuilder.chooseTopping_some_iff b ps, rfl,
    by simp [PizzaBuilder.bakePizza], ?_, ?_, ?_⟩
  · exact (PizzaBuilder.chooseBase_some_iff _ _).mpr hlive
  · exact (PizzaBuilder.chooseSauce_some_iff _ _).mpr hlive
  · exact (PizzaBuilder.chooseTopping_some_iff _ _).mpr hlive

theorem C8_only_bakePizza_assigns_pizza_witness :
    (BuilderOp.bakePizza ∉ [BuilderOp.chooseBase, BuilderOp.getPizza, BuilderOp.chooseTopping] ∧
     PizzaBuilder.run { cls := .SpicyPizzaBuilder, _pizza := some 1 }
         [Pizza.new, { _base := "deep pan", _sauce := "bbq", _topping := "all the meat" }]
         [.chooseBase, .getPizza, .chooseTopping]
       = some ({ cls := .SpicyPizzaBuilder, _pizza := some 1 },
           [Pizza.new, { _base := "thin crust", _sauce := "bbq",
                         _topping := "ground beef and jalapenos" }])) ∧
    (({ cls := .SpicyPizzaBuilder, _pizza := some 1 } : PizzaBuilder)._pizza = some 1 ∧
     ([Pizza.new, { _base := "thin crust", _sauce := "bbq",
                    _topping := "ground beef and jalapenos" }] : PizzaStore).length = 2) :=
  ⟨⟨by decide, by decide⟩,
    ⟨(C8_only_bakePizza_assigns_pizza { cls := .SpicyPizzaBuilder, _pizza := some 1 }
        [Pizza.new, { _base := "deep pan", _sauce := "bbq", _topping := "all the meat" }]
        [.chooseBase, .getPizza, .chooseTopping]
        ({ cls := .SpicyPizzaBuilder, _pizza := some 1 },
          [Pizza.new, { _base := "thin crust", _sauce := "bbq",
                        _topping := "ground beef and jalapenos" }])
        (by decide) (by decide)).2.1,
     (C8_only_bakePizza_assigns_pizza { cls := .SpicyPizzaBuilder, _pizza := some 1 }
        [Pizza.new, { _base := "deep pan", _sauce := "bbq", _topping := "all the meat" }]
        [.chooseBase, .getPizza, .chooseTopping]
        ({ cls := .SpicyPizzaBuilder, _pizza := some 1 },
          [Pizza.new, { _base := "thin crust", _sauce := "bbq",
                        _topping := "ground beef and jalapenos" }])
        (by decide) (by decide)).2.2.1⟩⟩



/-! ## Theorems: Decorator order -/

theorem Beverage.wrapAll_append (b : Beverage) (s1 s2 : List Garnish) :
    (b.wrapAll s1).wrapAll s2 = b.wrapAll (s1 ++ s2) := by
  simp [Beverage.wrapAll, List.foldl_append]

/-- C11: for every beverage `b`, `Lime(Umbrella(b))` and `Umbrella(Lime(b))` describe
themselves differently, the first ending with ", with a lime!" and the second with
", with an umbrella!"; wrapping with a sequence `s1` and then with `s2` gives the chain,
hence the description, of wrapping with `s1` followed by `s2`. -/
theorem C11_wrap_order_matters :
    (∀ b : Beverage,
      (Beverage.Lime (.Umbrella b)).describe ≠ (Beverage.Umbrella (.Lime b)).describe) ∧
    (∀ b : Beverage,
      List.IsSuffix ", with a lime!".data (Beverage.Lime (.Umbrella b)).describe.data ∧
      List.IsSuffix ", with an umbrella!".data (Beverage.Umbrella (.Lime b)).describe.data) ∧
    (∀ b : Beverage,
      (Beverage.Lime (.Umbrella b)).describe
        = b.describe ++ ", with an umbrella!" ++ ", with a lime!" ∧
      (Beverage.Umbrella (.Lime b)).describe
        = b.describe ++ ", with a lime!" ++ ", with an umbrella!") ∧
    (∀ (b : Beverage) (s1 s2 : List Garnish),
      (b.wrapAll s1).wrapAll s2 = b.wrapAll (s1 ++ s2) ∧
      ((b.wrapAll s1).wrapAll s2).describe = (b.wrapAll (s1 ++ s2)).describe) := by
  refine ⟨fun b h => ?_, fun b => ⟨?_, ?_⟩, fun b => ⟨rfl, rfl⟩, fun b s1 s2 => ?_⟩
  · have hd := congrArg String.data h
    simp only [Beverage.describe, String.data_append, List.append_assoc] at hd
    have hd1 := List.append_cancel_left hd
    exact absurd hd1 (by decide)
  · exact ⟨(Beverage.Umbrella b).describe.data, by simp [Beverage.describe]⟩
  · exact ⟨(Beverage.Lime b).describe.data, by simp [Beverage.describe]⟩
  · rw [Beverage.wrapAll_append]
    exact ⟨rfl, rfl⟩

/-- C16: a plain `RumAndCokeDecorator` around `b` describes itself exactly as `b` does, and
for every `b` the descriptions of `Lime(b)` and of `Umbrella(b)` are the description of `b`
followed by a non-empty text, so they are strictly longer. -/
theorem C16_base_decorator_transparent :
    (∀ b : Beverage, (Beverage.RumAndCokeDecorator b).describe = b.describe) ∧
    (∀ b : Beverage,
      (Beverage.Lime b).describe = b.describe ++ ", with a lime!" ∧
      List.IsPrefix b.describe.data (Beverage.Lime b).describe.data ∧
      b.describe.length < (Beverage.Lime b).describe.length ∧
      (Beverage.Lime b).describe ≠ b.describe) ∧
    (∀ b : Beverage,
      (Beverage.Umbrella b).describe = b.describe ++ ", with an umbrella!" ∧
      List.IsPrefix b.describe.data (Beverage.Umbrella b).describe.data ∧
      b.describe.length < (Beverage.Umbrella b).describe.length ∧
      (Beverage.Umbrella b).describe ≠ b.describe) := by
  have hl : (", with a lime!" : String).length = 14 := by decide
  have hu : (", with an umbrella!" : String).length = 19 := by decide
  refine ⟨fun b => rfl, fun b => ?_, fun b => ?_⟩
  · have hlen : b.describe.length < (Beverage.Lime b).describe.length := by
      simp only [Beverage.describe, String.length_append, hl]
      omega
    refine ⟨rfl, ⟨", with a lime!".data, by simp [Beverage.describe]⟩, hlen, fun h => ?_⟩
    rw [h] at hlen
    exact absurd hlen (lt_irrefl _)
  · have hlen : b.describe.length < (Beverage.Umbrella b).describe.length := by
      simp only [Beverage.describe, String.length_append, hu]
      omega
    refine ⟨rfl, ⟨", with an umbrella!".data, by simp [Beverage.describe]⟩, hlen, fun h => ?_⟩
    rw [h] at hlen
    exact absurd hlen (lt_irrefl _)

/-- C14: a duck built by `Duck()` on which `setQuack` was never called holds a
`QuackBehaviour`, and its `quack()` has a result, the line "Quack". -/
theorem C14_new_duck_quacks :
    (∀ addr : Nat, (Duck.new addr)._quacker = some (QuackBehaviour.Base addr)) ∧
    (∀ addr : Nat, (Duck.new addr)._quacker ≠ none) ∧
    (∀ addr : Nat, (Duck.new addr).quack = some "Quack") ∧
    (∀ addr : Nat, ((Duck.new addr).setQuacks []).quack = some "Quack") := by
  refine ⟨fun _ => rfl, fun addr => ?_, fun _ => rfl, fun _ => rfl⟩
  simp [Duck.new]

/-! ## Theorems: Director protocol -/

theorem Cook.bakePizza_refines (c : Cook) (s : Store) :
    c.bakePizza s = Cook.bakePizza_documented c s := by
  cases hc : c._pizzaBuilder with
  | none => simp [Cook.bakePizza, Cook.bakePizza_documented, hc]
  | some a =>
    cases hb : s.builders[a]? with
    | none => simp [Cook.bakePizza, Cook.bakePizza_documented, hc, hb]
    | some b =>
      cases h2 : (b.bakePizza s.pizzas).1.chooseBase (b.bakePizza s.pizzas).2 with
      | none =>
        simp [Cook.bakePizza, Cook.bakePizza_documented, hc, hb, PizzaBuilder.run,
          PizzaBuilder.step, h2]
      | some r2 =>
        cases h3 : r2.1.chooseSauce r2.2 with
        | none =>
          simp [Cook.bakePizza, Cook.bakePizza_documented, hc, hb, PizzaBuilder.run,
            PizzaBuilder.step, h2, h3]
        | some r3 =>
          cases h4 : r3.1.chooseTopping r3.2 with
          | none =>
            simp [Cook.bakePizza, Cook.bakePizza_documented, hc, hb, PizzaBuilder.run,
              PizzaBuilder.step, h2, h3, h4]
          | some r4 =>
            simp [Cook.bakePizza, Cook.bakePizza_documented, hc, hb, PizzaBuilder.run,
              PizzaBuilder.step, h2, h3, h4]

theorem PizzaBuilder.chooseBase_last (b : PizzaBuilder) (ps : PizzaStore) (z : Pizza)
    (h : b._pizza = some ps.length) :
    ∃ z1 : Pizza, b.chooseBase (ps ++ [z]) = some (b, ps ++ [z1]) := by
  cases hcls : b.cls <;>
    simp [PizzaBuilder.chooseBase, hcls, h, PizzaStore.update_last]

theorem PizzaBuilder.chooseSauce_last (b : PizzaBuilder) (ps : PizzaStore) (z : Pizza)
    (h : b._pizza = some ps.length) :
    ∃ z1 : Pizza, b.chooseSauce (ps ++ [z]) = some (b, ps ++ [z1]) := by
  cases hcls : b.cls <;>
    simp [PizzaBuilder.chooseSauce, hcls, h, PizzaStore.update_last]

theorem PizzaBuilder.chooseTopping_last (b : PizzaBuilder) (ps : PizzaStore) (z : Pizza)
    (h : b._pizza = some ps.length) :
    ∃ z1 : Pizza, b.chooseTopping (ps ++ [z]) = some (b, ps ++ [z1]) := by
  cases hcls : b.cls <;>
    simp [PizzaBuilder.chooseTopping, hcls, h, PizzaStore.update_last]

/-- C12: `Cook::bakePizza()` on a cook pointing at a builder `b` has a result, which is that
of the four steps `bakePizza`, `chooseBase`, `chooseSauce`, `chooseTopping` applied to `b`
once each in that order; the builder is stored back at its address, the other builders are
untouched, and the cook's pointer `_pizzaBuilder` is unchanged. -/
theorem C12_cook_runs_four_steps (c : Cook) (s : Store) (a : Nat) (b : PizzaBuilder)
    (hc : c._pizzaBuilder = some a) (hb : s.builders[a]? = some b) :
    c.bakePizza s = Cook.bakePizza_documented c s ∧
    (∃ (r2 r3 r4 : PizzaBuilder × PizzaStore),
      (b.bakePizza s.pizzas).1.chooseBase (b.bakePizza s.pizzas).2 = some r2 ∧
      r2.1.chooseSauce r2.2 = some r3 ∧
      r3.1.chooseTopping r3.2 = some r4 ∧
      b.run s.pizzas [.bakePizza, .chooseBase, .chooseSauce, .chooseTopping] = some r4 ∧
      c.bakePizza s = some (c, { pizzas := r4.2, builders := s.builders.set a r4.1 })) ∧
    (∀ r : Cook × Store, c.bakePizza s = some r →
      r.1._pizzaBuilder = c._pizzaBuilder ∧
      ∀ a1 : Nat, a1 ≠ a → r.2.builders[a1]? = s.builders[a1]?) := by
  have hrun := Cook.bakePizza_eq c s a b hc hb
  refine ⟨Cook.bakePizza_refines c s, ?_, ?_⟩
  · have hbake : b.bakePizza s.pizzas
        = ({ b with _pizza := some s.pizzas.length }, s.pizzas ++ [Pizza.new]) := rfl
    obtain ⟨z1, h1⟩ := PizzaBuilder.chooseBase_last
      { b with _pizza := some s.pizzas.length } s.pizzas Pizza.new rfl
    obtain ⟨z2, h2⟩ := PizzaBuilder.chooseSauce_last
      { b with _pizza := some s.pizzas.length } s.pizzas z1 rfl
    obtain ⟨z3, h3⟩ := PizzaBuilder.chooseTopping_last
      { b with _pizza := some s.pizzas.length } s.pizzas z2 rfl
    refine ⟨_, _, _, by rw [hbake]; exact h1, h2, h3, ?_, ?_⟩
    · simp [PizzaBuilder.run, PizzaBuilder.step, hbake, h1, h2, h3]
    · simp [Cook.bakePizza, hc, hb, hbake, h1, h2, h3]
  · intro r hr
    rw [hrun] at hr
    have hr1 := (Option.some.inj hr).symm
    subst hr1
    refine ⟨rfl, fun a1 ha1 => ?_⟩
    simp [List.getElem?_set_ne (Ne.symm ha1)]

theorem C12_cook_runs_four_steps_witness :
    ((Cook.new.setPizzaBuilder (some 0))._pizzaBuilder = some 0 ∧
     ({ pizzas := [], builders := [{ cls := .MeatFeastBuilder, _pizza := none }] } : Store).builders[0]?
       = some { cls := .MeatFeastBuilder, _pizza := none }) ∧
    ((Cook.new.setPizzaBuilder (some 0)).bakePizza
        { pizzas := [], builders := [{ cls := .MeatFeastBuilder, _pizza := none }] }
      = Cook.bakePizza_documented (Cook.new.setPizzaBuilder (some 0))
        { pizzas := [], builders := [{ cls := .MeatFeastBuilder, _pizza := none }] }) :=
  ⟨⟨rfl, rfl⟩, (C12_cook_runs_four_steps (Cook.new.setPizzaBuilder (some 0))
    { pizzas := [], builders := [{ cls := .MeatFeastBuilder, _pizza := none }] } 0
    { cls := .MeatFeastBuilder, _pizza := none } rfl rfl).1⟩

/-! ## Theorems: Product fields -/

theorem PizzaStore.update_valid (ps : PizzaStore) (p : Nat) (z : Pizza) (f : Pizza → Pizza)
    (hz : ps[p]? = some z) :
    PizzaStore.update ps (some p) f = some (ps.set p (f z)) := by
  simp [PizzaStore.update, hz]

/-- C13: the pizza `bakePizza()` allocates is new and has three empty strings; on a builder
whose `_pizza` points at a pizza, `chooseBase` writes only `_base`, `chooseSauce` only
`_sauce`, `chooseTopping` only `_topping`, each with the literal of the builder's class and
leaving every other pizza as it was; `setBase`, `setSauce` and `setTopping` of `Pizza` each
overwrite exactly one field. -/
theorem C13_fields_set_one_at_a_time (b : PizzaBuilder) (ps : PizzaStore) (p : Nat) (z : Pizza)
    (hb : b._pizza = some p) (hz : ps[p]? = some z) :
    (∀ (b0 : PizzaBuilder) (ps0 : PizzaStore),
      (b0.bakePizza ps0).1._pizza = some ps0.length ∧
      ps0[ps0.length]? = none ∧
      (b0.bakePizza ps0).2[ps0.length]? = some { _base := "", _sauce := "", _topping := "" }) ∧
    (∃ x : String,
      b.chooseBase ps = some (b, ps.set p { _base := x, _sauce := z._sauce, _topping := z._topping }) ∧
      (b.cls = .MeatFeastBuilder → x = "deep pan") ∧
      (b.cls = .SpicyPizzaBuilder → x = "thin crust")) ∧
    (∃ x : String,
      b.chooseSauce ps = some (b, ps.set p { _base := z._base, _sauce := x, _topping := z._topping }) ∧
      (b.cls = .MeatFeastBuilder → x = "bbq") ∧
      (b.cls = .SpicyPizzaBuilder → x = "tomato")) ∧
    (∃ x : String,
      b.chooseTopping ps = some (b, ps.set p { _base := z._base, _sauce := z._sauce, _topping := x }) ∧
      (b.cls = .MeatFeastBuilder → x = "all the meat") ∧
      (b.cls = .SpicyPizzaBuilder → x = "ground beef and jalapenos")) ∧
    (∀ (y : Pizza) (q : Nat), q ≠ p → (ps.set p y)[q]? = ps[q]?) ∧
    (∀ y : Pizza, (ps.set p y)[p]? = some y) ∧
    (∀ (y : Pizza) (x : String),
      y.setBase x = { _base := x, _sauce := y._sauce, _topping := y._topping } ∧
      y.setSauce x = { _base := y._base, _sauce := x, _topping := y._topping } ∧
      y.setTopping x = { _base := y._base, _sauce := y._sauce, _topping := x }) := by
  have hp : p < ps.length := (List.getElem?_eq_some.mp hz).1
  refine ⟨fun b0 ps0 => ⟨rfl, by simp, by simp [PizzaBuilder.bakePizza, Pizza.new]⟩,
    ?_, ?_, ?_, fun y q hq => ?_, fun y => ?_, fun y x => ⟨rfl, rfl, rfl⟩⟩
  · cases hcls : b.cls
    · exact ⟨"deep pan", by
        simp [PizzaBuilder.chooseBase, hcls, hb, PizzaStore.update_valid ps p z _ hz,
          Pizza.setBase], fun _ => rfl, fun h => (by cases h)⟩
    · exact ⟨"thin crust", by
        simp [PizzaBuilder.chooseBase, hcls, hb, PizzaStore.update_valid ps p z _ hz,
          Pizza.setBase], fun h => (by cases h), fun _ => rfl⟩
  · cases hcls : b.cls
    · exact ⟨"bbq", by
        simp [PizzaBuilder.chooseSauce, hcls, hb, PizzaStore.update_valid ps p z _ hz,
          Pizza.setSauce], fun _ => rfl, fun h => (by cases h)⟩
    · exact ⟨"tomato", by
        simp [PizzaBuilder.chooseSauce, hcls, hb, PizzaStore.update_valid ps p z _ hz,
          Pizza.setSauce], fun h => (by cases h), fun _ => rfl⟩
  · cases hcls : b.cls
    · exact ⟨"all the meat", by
        simp [PizzaBuilder.chooseTopping, hcls, hb, PizzaStore.update_valid ps p z _ hz,
          Pizza.setTopping], fun _ => rfl, fun h => (by cases h)⟩
    · exact ⟨"ground beef and jalapenos", by
        simp [PizzaBuilder.chooseTopping, hcls, hb, PizzaStore.update_valid ps p z _ hz,
          Pizza.setTopping], fun h => (by cases h), fun _ => rfl⟩
  · simp [List.getElem?_set_ne (Ne.symm hq)]
  · simp [hp]

theorem C13_fields_set_one_at_a_time_witness :
    (({ cls := .SpicyPizzaBuilder, _pizza := some 0 } : PizzaBuilder)._pizza = some 0 ∧
     ([{ _base := "a", _sauce := "b", _topping := "c" }] : PizzaStore)[0]?
       = some { _base := "a", _sauce := "b", _topping := "c" }) ∧
    (∃ x : String,
      PizzaBuilder.chooseSauce { cls := .SpicyPizzaBuilder, _pizza := some 0 }
          [{ _base := "a", _sauce := "b", _topping := "c" }]
        = some ({ cls := .SpicyPizzaBuilder, _pizza := some 0 },
            List.set [{ _base := "a", _sauce := "b", _topping := "c" }] 0
              { _base := "a", _sauce := x, _topping := "c" }) ∧
      (BuilderClass.SpicyPizzaBuilder = .MeatFeastBuilder → x = "bbq") ∧
      (BuilderClass.SpicyPizzaBuilder = .SpicyPizzaBuilder → x = "tomato")) :=
  ⟨⟨rfl, rfl⟩, (C13_fields_set_one_at_a_time { cls := .SpicyPizzaBuilder, _pizza := some 0 }
    [{ _base := "a", _sauce := "b", _topping := "c" }] 0
    { _base := "a", _sauce := "b", _topping := "c" } rfl rfl).2.2.1⟩

/-! ## Theorems: Observer algebra -/

theorem Database.eq_of_observers (db1 db2 : Database) (h : db1.observers = db2.observers) :
    db1 = db2 := by
  cases db1
  cases db2
  simp only at h
  rw [h]

theorem Database.not_mem_applyAll (o : Nat) (ops : List ListenerOp) (db : Database)
    (hdb : o ∉ db.observers) (hops : ListenerOp.register o ∉ ops) :
    o ∉ (db.applyAll ops).observers := by
  induction ops generalizing db with
  | nil => exact hdb
  | cons op ops ih =>
    have hop : op ≠ ListenerOp.register o := fun e => hops (by simp [e])
    have hrest : ListenerOp.register o ∉ ops := fun e => hops (by simp [e])
    have hstep : o ∉ (db.apply op).observers := by
      cases op with
      | register x =>
        have hx : o ≠ x := fun e => hop (by rw [e])
        simp [Database.apply, Database.registerListener, hdb, hx]
      | unregister x =>
        simp only [Database.apply, Database.unregisterListener_observers]
        intro hmem
        exact hdb (List.mem_filter.mp hmem).1
    simpa [Database.applyAll] using ih (db.apply op) hstep hrest

/-- C15: unregistering `o` twice gives what unregistering it once gives; registering `o` and
then unregistering it gives what unregistering `o` alone gives, which is the original
database exactly when `o` did not occur in it; after `unregisterListener(o)`, `update()`
does not call `o`, also after any further calls that do not register `o`, and it calls `o`
again once `o` is registered. -/
theorem C15_unregister_algebra (db : Database) (o : Nat) (ops : List ListenerOp)
    (hops : ListenerOp.register o ∉ ops) :
    (db.unregisterListener o).unregisterListener o = db.unregisterListener o ∧
    (db.registerListener o).unregisterListener o = db.unregisterListener o ∧
    ((db.registerListener o).unregisterListener o = db ↔ o ∉ db.observers) ∧
    o ∉ (db.unregisterListener o).update ∧
    o ∉ ((db.unregisterListener o).applyAll ops).update ∧
    o ∈ (((db.unregisterListener o).applyAll ops).registerListener o).update := by
  have hgone : o ∉ (db.unregisterListener o).observers := by
    rw [Database.unregisterListener_observers]
    simp
  have hreg : (db.registerListener o).unregisterListener o = db.unregisterListener o := by
    apply Database.eq_of_observers
    simp [Database.unregisterListener_observers, Database.registerListener]
  refine ⟨?_, hreg, ?_, ?_, ?_, ?_⟩
  · apply Database.eq_of_observers
    simp [Database.unregisterListener_observers]
  · rw [hreg]
    constructor
    · intro h hmem
      rw [← h] at hmem
      exact hgone hmem
    · intro h
      exact Database.unregisterListener_of_not_mem db o h
  · rw [Database.update_eq]
    exact hgone
  · rw [Database.update_eq]
    exact Database.not_mem_applyAll o ops _ hgone hops
  · rw [Database.update_eq]
    simp [Database.registerListener]

theorem C15_unregister_algebra_witness :
    ListenerOp.register 1 ∉ [ListenerOp.register 2, ListenerOp.unregister 1, ListenerOp.register 3] ∧
    1 ∉ ((Database.unregisterListener { observers := [1, 2, 1] } 1).applyAll
          [ListenerOp.register 2, ListenerOp.unregister 1, ListenerOp.register 3]).update :=
  ⟨by decide, (C15_unregister_algebra { observers := [1, 2, 1] } 1
    [ListenerOp.register 2, ListenerOp.unregister 1, ListenerOp.register 3] (by decide)).2.2.2.2.1⟩

end DesignPatterns
